import Mathlib

/-!
Verification development for the bibliography-enrichment tool (doi.py).

Strings are modelled as `List Char` (`Str`).  Python regular-expression
substitutions are embedded as left-to-right scanners that mirror the
behaviour of `re.sub` / `re.search` on the concrete patterns appearing in
the source.  Network calls are modelled by oracle functions supplied in an
environment record; a result of `none` models the call raising an
exception.  ASCII character classes are used for `\s`, `\w`, `[A-Za-z]`
and `str.lower()`, matching the source's behaviour on ASCII text.
-/

abbrev Str := List Char

/-- ASCII whitespace as matched by Python's `\s` / `str.strip()`. -/
def isPySpace (c : Char) : Bool :=
  c = ' ' || c = '\t' || c = '\n' || c = '\r' || c = '\x0b' || c = '\x0c'

/-- Python `str.strip()`: remove whitespace from both ends. -/
def pyStrip (s : Str) : Str :=
  ((s.dropWhile isPySpace).reverse.dropWhile isPySpace).reverse

/-- `listPre p s` holds when `p` is a prefix of `s` (used by the scanners). -/
def listPre : Str → Str → Bool
  | [], _ => true
  | _ :: _, [] => false
  | a :: p, b :: s => a = b && listPre p s

/-- Python's `pat in s` substring test. -/
def hasSub (pat : Str) : Str → Bool
  | [] => pat.isEmpty
  | s@(_ :: rest) => listPre pat s || hasSub pat rest

/-- Drop a literal from the front of `s`; `none` when it does not match. -/
def dropLit : Str → Str → Option Str
  | [], s => some s
  | _ :: _, [] => none
  | a :: p, b :: s => if a = b then dropLit p s else none

/-! ## Text Normalizer: `clean_protected_case`

The source applies two `re.sub` passes:
1. `(title\s*=\s*)\{\{([A-Za-z])\}(.*?)\}` (DOTALL) merging a doubled
   initial-letter case-protection brace into a single brace, and
2. `\{([A-Za-z])\}` stripping single-letter case-protection braces.
-/

/-- One attempt of pass 1's pattern at the head of `l`: on success returns
the replacement text `group1 ++ \x7b ++ letter ++ body ++ \x7d` and the
rest of the input after the match.  The lazy `(.*?)\}` takes the body up
to the first closing brace. -/
def tryMatch1 (l : Str) : Option (Str × Str) :=
  match dropLit "title".data l with
  | none => none
  | some l1 =>
    let w1 := l1.takeWhile isPySpace
    match l1.dropWhile isPySpace with
    | '=' :: l3 =>
      let w2 := l3.takeWhile isPySpace
      match l3.dropWhile isPySpace with
      | '{' :: '{' :: c :: '}' :: l5 =>
        if c.isAlpha then
          let body := l5.takeWhile (fun x => x ≠ '}')
          match l5.dropWhile (fun x => x ≠ '}') with
          | '}' :: rest =>
            some ("title".data ++ w1 ++ ['='] ++ w2 ++ ['{'] ++ (c :: body) ++ ['}'], rest)
          | _ => none
        else none
      | _ => none
    | _ => none

/-- Pass 1 of `clean_protected_case`, fuelled left-to-right scan.  Every
successful match consumes at least eleven characters and every failure
consumes one, so fuel `l.length` (as supplied by `mergeDouble`) is never
exhausted on the way to the empty list. -/
def mergeDoubleGo : Nat → Str → Str
  | 0, l => l
  | fuel + 1, l =>
    match l with
    | [] => []
    | x :: xs =>
      match tryMatch1 (x :: xs) with
      | some (rep, rest) => rep ++ mergeDoubleGo fuel rest
      | none => x :: mergeDoubleGo fuel xs

/-- Pass 1 of `clean_protected_case`: merge `title = \x7b\x7bX\x7dyz\x7d`
into `title = \x7bXyz\x7d`. -/
def mergeDouble (l : Str) : Str := mergeDoubleGo l.length l

/-- Pass 2 of `clean_protected_case`: `re.sub(r"\{([A-Za-z])\}", r"\1", s)`,
a left-to-right non-overlapping scan stripping single-letter braces. -/
def stripSingle : Str → Str
  | '{' :: c :: '}' :: rest =>
    if c.isAlpha then c :: stripSingle rest else '{' :: stripSingle (c :: '}' :: rest)
  | x :: xs => x :: stripSingle xs
  | [] => []

/-- The source's `clean_protected_case`: pass 1 then pass 2. -/
def clean_protected_case (s : Str) : Str := stripSingle (mergeDouble s)

/-- Does the list start with a single-letter case-protection group
`\x7b` letter `\x7d`? -/
def isSingleAt : Str → Bool
  | '{' :: c :: '}' :: _ => c.isAlpha
  | _ => false

/-- Does the text contain a single-letter case-protection group anywhere? -/
def hasSingle : Str → Bool
  | [] => false
  | x :: xs => isSingleAt (x :: xs) || hasSingle xs

/-! ## Metadata search: `search_doi_by_metadata`

Candidate items model the JSON objects of the registry response: an
optional `title` list (the source reads `item.get('title', [""])[0]`) and
a `DOI` string (each candidate of a well-formed response exposes one). -/

/-- Python word characters (`\w`), ASCII fragment. -/
def wordChar (c : Char) : Bool := c.isAlphanum || c = '_'

/-- The source's inner `normalize` (renamed: Mathlib already owns that
name): `re.sub(r"\W+", "", s).lower()`. -/
def normalizeTitle (s : Str) : Str := (s.filter wordChar).map Char.toLower

/-- `re.sub(r"[\\\{\}]", "", title).strip()` applied to the query title. -/
def cleanTitleQuery (t : Str) : Str :=
  pyStrip (t.filter (fun c => !(c == '\\' || c == '{' || c == '}')))

structure CrossrefItem where
  title : Option (List Str)
  DOI : Str
deriving DecidableEq

inductive SearchErr where
  | noCandidates
  | noExactTitleMatch
  | indexError
deriving DecidableEq

/-- `item.get('title', [""])[0]`: `none` models the `IndexError` raised when
the `title` key is present but holds an empty list. -/
def candTitle (it : CrossrefItem) : Option Str := (it.title.getD [[]]).head?

/-- The `for item in items` loop: first candidate whose normalized title
equals the target wins; exhaustion raises the no-exact-match error. -/
def searchLoop (target : Str) : List CrossrefItem → Except SearchErr Str
  | [] => .error .noExactTitleMatch
  | it :: rest =>
    match candTitle it with
    | none => .error .indexError
    | some c => if normalizeTitle c = target then .ok it.DOI else searchLoop target rest

/-- The source's `search_doi_by_metadata`, as a function of the candidate
list returned by the registry (the `author` argument only feeds the query,
never the matching). -/
def search_doi_by_metadata (title author : Str) (items : List CrossrefItem) :
    Except SearchErr Str :=
  if items.isEmpty then .error .noCandidates
  else searchLoop (normalizeTitle (cleanTitleQuery title)) items

/-! ## Resilient fetcher: `http_get`

A run of `http_get` is determined by the statuses of the successive HTTP
responses, modelled as `resps : Nat → Nat` indexed by attempt number
(starting at 1).  The result records whether a response was returned or an
error raised, paired with the list of back-off sleeps performed. -/

def MAX_RETRIES : Nat := 3

def BACKOFF_FACTOR : Nat := 1

inductive HttpOutcome where
  | ok (status : Nat)
  | httpError (status : Nat)
  | retNone
deriving DecidableEq

/-- `Response.raise_for_status()`: raises exactly for 4xx and 5xx. -/
def raise_for_status (s : Nat) : HttpOutcome :=
  if 400 ≤ s ∧ s < 600 then .httpError s else .ok s

/-- After the loop, `resp.raise_for_status()` either raises or the function
falls off the end returning Python's implicit `None`. -/
def pyNoneGuard : HttpOutcome → HttpOutcome
  | .ok _ => .retNone
  | x => x

/-- The `for attempt in range(1, MAX_RETRIES + 1)` loop: first component of
the countdown is the number of remaining iterations. -/
def http_get_loop (resps : Nat → Nat) : Nat → Nat → HttpOutcome × List Nat
  | 0, _ => (pyNoneGuard (raise_for_status (resps MAX_RETRIES)), [])
  | rem + 1, attempt =>
    if resps attempt = 429 then
      let wait := BACKOFF_FACTOR * 2 ^ (attempt - 1)
      let r := http_get_loop resps rem (attempt + 1)
      (r.1, wait :: r.2)
    else (raise_for_status (resps attempt), [])

/-- The source's `http_get` over a sequence of response statuses. -/
def http_get (resps : Nat → Nat) : HttpOutcome × List Nat :=
  http_get_loop resps MAX_RETRIES 1

/-- A status `raise_for_status` does not raise on. -/
def isSuccessStatus (s : Nat) : Bool := !(400 ≤ s ∧ s < 600 : Bool)

/-! ## Preprint resolver: `extract_arxiv_doi` -/

/-- Remainder of `s` strictly after the first occurrence of `sep`. -/
def dropAfterFirst (sep : Str) : Str → Option Str
  | [] => none
  | s@(_ :: rest) =>
    if listPre sep s then some (s.drop sep.length) else dropAfterFirst sep rest

/-- Fuelled scan computing the last element of Python's `s.split(sep)`;
with non-empty `sep` each found occurrence consumes at least one
character, so fuel `s.length` is never exhausted. -/
def pySplitLastGo (sep : Str) : Nat → Str → Str
  | 0, s => s
  | fuel + 1, s =>
    match dropAfterFirst sep s with
    | some rest => pySplitLastGo sep fuel rest
    | none => s

/-- Python `s.split(sep)[-1]` for non-empty `sep`. -/
def pySplitLast (sep s : Str) : Str := pySplitLastGo sep s.length s

/-- Python `s.rstrip('/')`. -/
def pyRstripSlash (s : Str) : Str := (s.reverse.dropWhile (fun c => c = '/')).reverse

/-- Capture `[^"]+` up to a closing quote and return `pre ++` the body. -/
def grabHrefBody (pre : Str) (l6 : Str) : Option Str :=
  let body := l6.takeWhile (fun c => c ≠ '"')
  match l6.dropWhile (fun c => c ≠ '"') with
  | '"' :: _ => if body.isEmpty then none else some (pre ++ body)
  | _ => none

/-- Match `://doi` followed by any character (the pattern's unescaped dot)
then `org/`, then the quoted body. -/
def tryDoiHrefTail (pre : Str) (l3 : Str) : Option Str :=
  match dropLit "://doi".data l3 with
  | none => none
  | some l4 =>
    match l4 with
    | anyc :: l5 =>
      match dropLit "org/".data l5 with
      | none => none
      | some l6 => grabHrefBody (pre ++ "://doi".data ++ [anyc] ++ "org/".data) l6
    | [] => none

/-- Try `href="(https?://doi.org/[^"]+)"` at the head of `l`, returning
group 1; the two arms of `https?` are tried greedily then backtracked. -/
def tryDoiHrefAt (l : Str) : Option Str :=
  match dropLit "href=\"".data l with
  | none => none
  | some l1 =>
    match dropLit "http".data l1 with
    | none => none
    | some l2 =>
      match l2 with
      | 's' :: r => (tryDoiHrefTail "https".data r) <|> (tryDoiHrefTail "http".data l2)
      | _ => tryDoiHrefTail "http".data l2

/-- `re.search` for the DOI-resolver link pattern: first match wins. -/
def findDoiHref : Str → Option Str
  | [] => none
  | s@(_ :: rest) =>
    match tryDoiHrefAt s with
    | some g => some g
    | none => findDoiHref rest

/-- The source's `extract_arxiv_doi` as a function of the fetched abstract
page text: `none` models the `ValueError` when no resolver link exists.
The returned identifier is `match.group(1).split('/')[-1]`. -/
def extract_arxiv_doi (page : Str) : Option Str :=
  match findDoiHref page with
  | none => none
  | some link => some (pySplitLast "/".data link)

/-! ## Record Resolution Pipeline: the per-record body of `process_bib_file`

A structured record carries the fields the pipeline reads from the
external parser's mapping (via `ent.get(...)`); `none` models an absent
key.  The environment bundles the network oracles and the external
collaborators (the entry writer and today's date); an oracle returning
`none` models the corresponding call raising an exception.  Every call to
`fetch_bibtex_from_doi` and every `used_dois.add` / duplicate-skip notice
is recorded in an event trace so that the fetch discipline can be stated. -/

structure Entry where
  doi : Option Str
  url : Str
  author : Str
  title : Str
  year : Option Str
deriving DecidableEq

structure Env where
  arxivPage : Str → Option Str
  metaSearch : Str → Str → Option Str
  fetchRaw : Str → Option Str
  render : Entry → Str
  today : Str
  todayYear : Str

inductive Event where
  | fetch (doi : Str)
  | claim (doi : Str)
  | skip (doi : Str)
  | metaFail
deriving DecidableEq

/-- Result of resolving one record: the replacement text (`none` models an
uncaught exception aborting the run), the updated `used_dois`, the local
event trace, and which branch produced the replacement (1-5 as in the
source's comments, 6/7 for the raw-block path, 0 for a propagated error). -/
structure StepOut where
  repl : Option Str
  used_dois : List Str
  events : List Event
  branch : Nat
deriving DecidableEq

/-- The source's `fetch_bibtex_from_doi`: network result (primary with
secondary-registry fallback, abstracted by the oracle) cleaned by the
normalizer. -/
def fetch_bibtex_from_doi (env : Env) (doi : Str) : Option Str :=
  (env.fetchRaw doi).map clean_protected_case

/-- Python truthiness of `ent.get('doi')`: absent or empty is false. -/
def pyTruthy : Option Str → Bool
  | none => false
  | some s => !s.isEmpty

def doiOrgS : Str := "doi.org".data

def arxivAbsS : Str := "arxiv.org/abs".data

/-- `title.replace('\n', ' ')`. -/
def pyReplaceNl (s : Str) : Str := s.map (fun c => if c = '\n' then ' ' else c)

/-- Branch 1's synthesized `@misc` block, exactly as the source's f-string
builds it. -/
def miscText (env : Env) (key : Str) (ent : Entry) (urlf : Str) : Str :=
  let author := ent.author
  let title := pyStrip (pyReplaceNl ent.title)
  let year := ent.year.getD env.todayYear
  "@misc\x7b".data ++ key ++ ",\n  author       = \x7b".data ++ author
    ++ "\x7d,\n  title        = \x7b".data ++ title
    ++ "\x7d,\n  howpublished = \x7b\\url\x7b".data ++ urlf
    ++ "\x7d\x7d,\n  year         = \x7b".data ++ year
    ++ "\x7d,\n  note         = \x7bAccessed: ".data ++ env.today
    ++ "\x7d,\n\x7d\n".data

/-- Outcome of one fallible strategy: a final result, or fall-through to
the next branch carrying the updated state and the events incurred. -/
inductive Att where
  | done (s : StepOut)
  | fall (used_dois : List Str) (events : List Event)

/-- Branch 2: arXiv URL → abstract page → DOI → fetch.  All failures are
swallowed (`except Exception: pass`); a duplicate identifier falls through
silently. -/
def tryArxiv (env : Env) (used : List Str) (urlf : Str) : Att :=
  let aid := pySplitLast "/".data (pyRstripSlash urlf)
  match env.arxivPage aid with
  | none => .fall used []
  | some page =>
    match extract_arxiv_doi page with
    | none => .fall used []
    | some adoi =>
      if used.contains adoi then .fall used []
      else
        match fetch_bibtex_from_doi env adoi with
        | some t => .done ⟨some t, adoi :: used, [.fetch adoi, .claim adoi], 2⟩
        | none => .fall used [.fetch adoi]

/-- Branch 3: metadata search.  A duplicate identifier prints the
SKIPPING-duplicate notice and falls through; search or fetch failures
print the metadata-failure notice and fall through. -/
def tryMetadata (env : Env) (used : List Str) (ent : Entry) : Att :=
  match env.metaSearch ent.title ent.author with
  | none => .fall used [.metaFail]
  | some found =>
    if used.contains found then .fall used [.skip found]
    else
      match fetch_bibtex_from_doi env found with
      | some t => .done ⟨some t, found :: used, [.fetch found, .claim found], 3⟩
      | none => .fall used [.fetch found, .metaFail]

/-- Branch 4: direct DOI.  No try/except here — a fetch failure propagates
out of the per-record resolution (`repl := none`). -/
def tryDoiDirect (env : Env) (used : List Str) (d : Str) : Att :=
  if used.contains d then .fall used []
  else
    match fetch_bibtex_from_doi env d with
    | some t => .done ⟨some t, d :: used, [.fetch d, .claim d], 4⟩
    | none => .done ⟨none, used, [.fetch d], 0⟩

/-- The per-record decision tree for a record the external parser could
structure (the `if ent:` arm of the source's loop). -/
def resolveStructured (env : Env) (used0 : List Str) (key : Str) (ent : Entry) : StepOut :=
  let doiT := pyTruthy ent.doi
  let urlf := pyStrip ent.url
  if !doiT && !urlf.isEmpty && !hasSub doiOrgS urlf && !hasSub arxivAbsS urlf then
    ⟨some (clean_protected_case (miscText env key ent urlf)), used0, [], 1⟩
  else
    match (if !doiT && hasSub arxivAbsS urlf then tryArxiv env used0 urlf else Att.fall used0 []) with
    | .done s => s
    | .fall u1 e1 =>
      match (if !doiT then tryMetadata env u1 ent else Att.fall u1 []) with
      | .done s => ⟨s.repl, s.used_dois, e1 ++ s.events, s.branch⟩
      | .fall u2 e2 =>
        match (if doiT then tryDoiDirect env u2 (ent.doi.getD []) else Att.fall u2 []) with
        | .done s => ⟨s.repl, s.used_dois, e1 ++ e2 ++ s.events, s.branch⟩
        | .fall u3 e3 =>
          ⟨some (clean_protected_case (env.render ent)), u3, e1 ++ e2 ++ e3, 5⟩

/-- Case-insensitive variant of `dropLit` (for `re.IGNORECASE`). -/
def dropLitCI : Str → Str → Option Str
  | [], s => some s
  | _ :: _, [] => none
  | a :: p, b :: s => if a.toLower = b.toLower then dropLitCI p s else none

/-- One attempt of `NAME\s*=\s*\{([^}]+)\}` (IGNORECASE) at the head of
`l`, returning group 1. -/
def tryFieldAt (name : Str) (l : Str) : Option Str :=
  match dropLitCI name l with
  | none => none
  | some l1 =>
    match l1.dropWhile isPySpace with
    | '=' :: l3 =>
      match l3.dropWhile isPySpace with
      | '{' :: l5 =>
        let body := l5.takeWhile (fun c => c ≠ '}')
        match l5.dropWhile (fun c => c ≠ '}') with
        | '}' :: _ => if body.isEmpty then none else some body
        | _ => none
      | _ => none
    | _ => none

/-- `re.search` for a brace-delimited field, case-insensitive, first match
wins. -/
def findField (name : Str) : Str → Option Str
  | [] => none
  | s@(_ :: rest) =>
    match tryFieldAt name s with
    | some b => some b
    | none => findField name rest

/-- The identifier a raw block yields: the DOI field's value (`m1`), else
the identifier suffix of a `doi.org` URL field (`m2`), else nothing. -/
def rawDoi (block : Str) : Option Str :=
  match findField "doi".data block with
  | some x => some x
  | none =>
    match findField "url".data block with
    | some u => if hasSub doiOrgS u then some (pySplitLast "doi.org/".data u) else none
    | none => none

/-- The raw-block arm of the loop (records the parser could not
structure): look for a DOI field, else a `doi.org` URL field; fetch when
found, unclaimed and non-empty; otherwise clean the block verbatim. -/
def resolveRaw (env : Env) (used0 : List Str) (block : Str) : StepOut :=
  match rawDoi block with
  | some doi =>
    if !doi.isEmpty && !used0.contains doi then
      match fetch_bibtex_from_doi env doi with
      | some t => ⟨some t, doi :: used0, [.fetch doi, .claim doi], 6⟩
      | none => ⟨some (clean_protected_case block), used0, [.fetch doi], 7⟩
    else ⟨some (clean_protected_case block), used0, [], 7⟩
  | none => ⟨some (clean_protected_case block), used0, [], 7⟩

/-- One record as seen by the loop: the regex match's key and whole text,
plus the external parser's structured entry for that key, when any. -/
structure RecordIn where
  key : Str
  block : Str
  ent : Option Entry

def runStep (env : Env) (used : List Str) (r : RecordIn) : StepOut :=
  match r.ent with
  | some e => resolveStructured env used r.key e
  | none => resolveRaw env used r.block

/-- The whole per-record loop: replacement texts in record order, the
final `used_dois`, and the concatenated event trace.  A propagated
exception (branch 4 fetch failure) aborts the run. -/
def runAll (env : Env) (used : List Str) : List RecordIn → List (Option Str) × List Str × List Event
  | [] => ([], used, [])
  | r :: rs =>
    let o := runStep env used r
    match o.repl with
    | none => ([none], o.used_dois, o.events)
    | some t =>
      let rest := runAll env o.used_dois rs
      (some t :: rest.1, rest.2.1, o.events ++ rest.2.2)

/-! ### Trace predicates for the Dedup Guard -/

/-- `used_dois` after replaying the `claim` events of a trace. -/
def usedAfter (u : List Str) : List Event → List Str
  | [] => u
  | Event.claim x :: rest => usedAfter (x :: u) rest
  | _ :: rest => usedAfter u rest

/-- Check-before-fetch discipline: every `fetch x` happens while `x` is
not yet recorded in `used_dois`. -/
def wellFetched (u : List Str) : List Event → Bool
  | [] => true
  | Event.fetch x :: rest => !u.contains x && wellFetched u rest
  | Event.claim x :: rest => wellFetched (x :: u) rest
  | _ :: rest => wellFetched u rest

/-- The discipline claim C5 asserts: every `fetch x` happens while `x` is
already recorded in `used_dois`. -/
def fetchAfterClaim (u : List Str) : List Event → Bool
  | [] => true
  | Event.fetch x :: rest => u.contains x && fetchAfterClaim u rest
  | Event.claim x :: rest => fetchAfterClaim (x :: u) rest
  | _ :: rest => fetchAfterClaim u rest

def isSkipEv : Event → Bool
  | .skip _ => true
  | _ => false

/-! ## Span Reassembler

The tail of `process_bib_file`: one `Replacement` per discovered record
span, applied to the raw text sorted by start offset descending.  The
source dict's `end` key is rendered as `stop` (`end` is reserved in
Lean). -/

structure Replacement where
  start : Nat
  stop : Nat
  text : Str
deriving DecidableEq

/-- One splice: `new_text[:start] + text + new_text[end:]`. -/
def spliceOne (s : Str) (r : Replacement) : Str :=
  s.take r.start ++ r.text ++ s.drop r.stop

/-- Stable insertion keeping starts in descending order (equal starts keep
their original relative order, as Python's stable `sorted` does). -/
def insertDesc (r : Replacement) : List Replacement → List Replacement
  | [] => [r]
  | x :: xs => if r.start < x.start then x :: insertDesc r xs else r :: x :: xs

/-- `sorted(replacements, key=lambda x: x['start'], reverse=True)`. -/
def sortDesc : List Replacement → List Replacement
  | [] => []
  | r :: rs => insertDesc r (sortDesc rs)

/-- The splice loop: apply the replacements from bottom to top. -/
def applyReplacements (s : Str) (rs : List Replacement) : Str :=
  (sortDesc rs).foldl spliceOne s

/-- The shape `finditer` guarantees for the collected replacements: spans
in discovery order, pairwise non-overlapping, each non-empty, all within
the text. -/
def validSpans (len : Nat) : Nat → List Replacement → Bool
  | pos, [] => decide (pos ≤ len)
  | pos, r :: rs => decide (pos ≤ r.start) && decide (r.start < r.stop) && validSpans len r.stop rs

/-- The reassembly the spec describes: the text outside the spans verbatim,
each span once, replaced by its replacement text. -/
def reassembled (s : Str) : Nat → List Replacement → Str
  | pos, [] => s.drop pos
  | pos, r :: rs => (s.take r.start).drop pos ++ r.text ++ reassembled s r.stop rs

/-! ## Proof-support definitions and concrete test data -/

/-- Invariant of a resolved record relative to the incoming `used_dois`:
its trace respects the check-before-fetch discipline and its `claim`
events account exactly for the growth of `used_dois`. -/
@[reducible] def StepOK (u : List Str) (o : StepOut) : Prop :=
  wellFetched u o.events = true ∧ usedAfter u o.events = o.used_dois

/-- The same invariant for a strategy attempt. -/
@[reducible] def AttOK (u : List Str) : Att → Prop
  | .done s => StepOK u s
  | .fall u' e => wellFetched u e = true ∧ usedAfter u e = u'

/-- The abstract-page HTML of the C4 scenario. -/
def htmlC4 : Str := "<a href=\"https://doi.org/10.2/y\">doi</a>".data

/-- Concrete environment for the scenario runs. -/
def envT : Env := ⟨
  fun aid => if aid = "1234.5678".data then some htmlC4 else none,
  fun _ _ => none,
  fun d =>
    if d = "y".data || d = "10.3/z".data || d = "10.1/x".data || d = "10.4/w".data
    then some "FETCHED".data else none,
  fun _ => "RENDERED".data,
  "2026-10-12".data, "2026".data⟩

/-- Environment whose canonical-citation endpoint never fails. -/
def envTotal : Env :=
  ⟨fun _ => none, fun _ _ => none, fun _ => some "FETCHED".data,
   fun _ => "RENDERED".data, "2026-10-12".data, "2026".data⟩

def entArxiv : Entry := ⟨none, "https://arxiv.org/abs/1234.5678".data, "A".data, "T".data, none⟩

def entDoiZ : Entry := ⟨some "10.3/z".data, "https://example.com/p".data, "A".data, "T".data, none⟩

def entDoiX : Entry := ⟨some "10.1/x".data, "https://example.com/p".data, "A".data, "T".data, none⟩

def entDoiW : Entry := ⟨some "10.4/w".data, [], "A".data, "T".data, none⟩

def recZ1 : RecordIn := ⟨"k1".data, "@article\x7bk1, doi=\x7b10.3/z\x7d\x7d".data, some entDoiZ⟩

def recZ2 : RecordIn := ⟨"k2".data, "@article\x7bk2, doi=\x7b10.3/z\x7d\x7d".data, some entDoiZ⟩

def recW : RecordIn := ⟨"k3".data, "@article\x7bk3, doi=\x7b10.4/w\x7d\x7d".data, some entDoiW⟩

def recK1 : RecordIn := ⟨"k".data, "@article\x7bk, doi=\x7b10.3/z\x7d\x7d".data, some entDoiZ⟩

def recK2 : RecordIn := ⟨"k".data, "@misc\x7bk, note=\x7bdup\x7d\x7d".data, some entDoiZ⟩

def itemsW : List CrossrefItem :=
  [⟨some ["Near Miss".data], "10.9/no".data⟩, ⟨some ["A New,  Result!".data], "10.9/yes".data⟩]

def repA : Replacement := ⟨1, 2, "XY".data⟩

def repB : Replacement := ⟨3, 5, "Z".data⟩

/-! # Theorems -/

theorem hasSingle_cons_false {x : Char} {xs : Str} (h : hasSingle (x :: xs) = false) :
    hasSingle xs = false := by
  simp [hasSingle] at h
  exact h.2

theorem hasSingle_append_mid (a : Str) (c : Char) (b : Str) (hc : c.isAlpha = true) :
    hasSingle (a ++ '{' :: c :: '}' :: b) = true := by
  induction a with
  | nil => simp [hasSingle, isSingleAt, hc]
  | cons x a ih => simp [hasSingle, ih]

theorem dropLit_some (p : Str) : ∀ l r : Str, dropLit p l = some r → l = p ++ r := by
  induction p with
  | nil =>
    intro l r h
    simp [dropLit] at h
    simp [h]
  | cons a p ih =>
    intro l r h
    cases l with
    | nil => simp [dropLit] at h
    | cons b l =>
      simp only [dropLit] at h
      by_cases hab : a = b
      · rw [if_pos hab] at h
        rw [← hab, List.cons_append]
        exact congrArg _ (ih l r h)
      · rw [if_neg hab] at h
        exact absurd h (by simp)

theorem tryMatch1_hasSingle {l : Str} {pr : Str × Str} (h : tryMatch1 l = some pr) :
    hasSingle l = true := by
  unfold tryMatch1 at h
  split at h
  · exact absurd h (by simp)
  next l1 heq1 =>
    split at h
    case _ l3 heq2 =>
      split at h
      case _ c l5 heq3 =>
        split at h
        case isTrue hc =>
          have hl1 : l1 = l1.takeWhile isPySpace ++ '=' :: l3 := by
            conv_lhs => rw [← List.takeWhile_append_dropWhile (p := isPySpace) (l := l1)]
            rw [heq2]
          have hl3 : l3 = l3.takeWhile isPySpace ++ '{' :: '{' :: c :: '}' :: l5 := by
            conv_lhs => rw [← List.takeWhile_append_dropWhile (p := isPySpace) (l := l3)]
            rw [heq3]
          have hl : l = ("title".data ++ l1.takeWhile isPySpace ++ '=' ::
              l3.takeWhile isPySpace ++ ['{']) ++ '{' :: c :: '}' :: l5 := by
            rw [dropLit_some _ _ _ heq1]
            conv_lhs => rw [hl1]
            conv_lhs => rw [hl3]
            simp
          rw [hl]
          exact hasSingle_append_mid _ c _ hc
        case isFalse => exact absurd h (by simp)
      case _ => exact absurd h (by simp)
    case _ => exact absurd h (by simp)

theorem mergeDoubleGo_no_single :
    ∀ (fuel : Nat) (l : Str), hasSingle l = false → mergeDoubleGo fuel l = l := by
  intro fuel
  induction fuel with
  | zero => intro l _; rfl
  | succ n ih =>
    intro l h
    cases l with
    | nil => rfl
    | cons x xs =>
      rw [mergeDoubleGo]
      cases htm : tryMatch1 (x :: xs) with
      | some pr => exact absurd (tryMatch1_hasSingle htm) (by simp [h])
      | none => simp [htm, ih xs (hasSingle_cons_false h)]

theorem mergeDouble_no_single {l : Str} (h : hasSingle l = false) : mergeDouble l = l :=
  mergeDoubleGo_no_single _ _ h

theorem stripSingle_no_single (l : Str) : hasSingle l = false → stripSingle l = l := by
  induction l using stripSingle.induct with
  | case1 c rest hc ih =>
    intro h
    exact absurd h (by simp [hasSingle, isSingleAt, hc])
  | case2 c rest hc ih =>
    intro h
    have h' := hasSingle_cons_false h
    simp [stripSingle, hc, ih h']
  | case3 x xs hne ih =>
    intro h
    rw [stripSingle]
    · rw [ih (hasSingle_cons_false h)]
    · exact hne
  | case4 => intro h; rfl

/-- Claim C2 (amended): `clean_protected_case` is idempotent on every text
whose once-cleaned form contains no residual single-letter case-protection
group.  (It is not idempotent in general: nested groups such as
`\x7b\x7ba\x7d\x7d` leave a fresh `\x7ba\x7d` after one pass, which a
second pass strips — see the counterexample.) -/
theorem clean_protected_case_idem_on_cleaned (t : Str)
    (h : hasSingle (clean_protected_case t) = false) :
    clean_protected_case (clean_protected_case t) = clean_protected_case t := by
  conv_lhs => rw [clean_protected_case, mergeDouble_no_single h]
  exact stripSingle_no_single _ h

/-- Claim C2 (counterexample): the text normalizer is not idempotent — on
`\x7b\x7ba\x7d\x7d` one application yields `\x7ba\x7d`, a second yields
`a`. -/
theorem clean_protected_case_not_idem :
    clean_protected_case (clean_protected_case "\x7b\x7ba\x7d\x7d".data) ≠
      clean_protected_case "\x7b\x7ba\x7d\x7d".data := by decide

theorem clean_protected_case_idem_on_cleaned_witness :
    hasSingle (clean_protected_case "title=\x7b\x7bA\x7dnew result\x7d".data) = false ∧
    clean_protected_case (clean_protected_case "title=\x7b\x7bA\x7dnew result\x7d".data) =
      clean_protected_case "title=\x7b\x7bA\x7dnew result\x7d".data :=
  ⟨by decide, clean_protected_case_idem_on_cleaned _ (by decide)⟩

theorem validSpans_mono {len q p : Nat} {rs : List Replacement}
    (h : validSpans len p rs = true) (hq : q ≤ p) : validSpans len q rs = true := by
  cases rs with
  | nil => simp [validSpans] at h ⊢; omega
  | cons r rs =>
    simp [validSpans] at h ⊢
    exact ⟨⟨by omega, h.1.2⟩, h.2⟩

theorem validSpans_le {len : Nat} :
    ∀ {rs : List Replacement} {p : Nat}, validSpans len p rs = true → p ≤ len := by
  intro rs
  induction rs with
  | nil => intro p h; simpa [validSpans] using h
  | cons r rs ih =>
    intro p h
    simp [validSpans] at h
    obtain ⟨⟨h1, h2⟩, h3⟩ := h
    have := ih h3
    omega

theorem validSpans_all_ge {len : Nat} :
    ∀ {rs : List Replacement} {p : Nat}, validSpans len p rs = true →
      ∀ x ∈ rs, p ≤ x.start := by
  intro rs
  induction rs with
  | nil => intro p _ x hx; simp at hx
  | cons r rs ih =>
    intro p h x hx
    simp [validSpans] at h
    obtain ⟨⟨h1, h2⟩, h3⟩ := h
    rcases List.mem_cons.mp hx with rfl | hx'
    · exact h1
    · have := ih h3 x hx'
      omega

theorem insertDesc_all_lt {r : Replacement} :
    ∀ {l : List Replacement}, (∀ x ∈ l, r.start < x.start) → insertDesc r l = l ++ [r] := by
  intro l
  induction l with
  | nil => intro _; rfl
  | cons x xs ih =>
    intro h
    have hx : r.start < x.start := h x (by simp)
    simp [insertDesc, hx, ih (fun y hy => h y (by simp [hy]))]

theorem sortDesc_eq_reverse {len : Nat} :
    ∀ {rs : List Replacement} {p : Nat}, validSpans len p rs = true →
      sortDesc rs = rs.reverse := by
  intro rs
  induction rs with
  | nil => intro p _; rfl
  | cons r rs ih =>
    intro p h
    simp [validSpans] at h
    obtain ⟨⟨h1, h2⟩, h3⟩ := h
    have hall : ∀ x ∈ rs.reverse, r.start < x.start := by
      intro x hx
      have := validSpans_all_ge h3 x (List.mem_reverse.mp hx)
      omega
    simp [sortDesc, ih h3, insertDesc_all_lt hall]

theorem reassembled_take {s : Str} {rest : List Replacement} {k : Nat}
    (h : validSpans s.length k rest = true) : (reassembled s 0 rest).take k = s.take k := by
  cases rest with
  | nil => simp [reassembled]
  | cons r' rs' =>
    simp [validSpans] at h
    obtain ⟨⟨h1, h2⟩, h3⟩ := h
    have hle : r'.stop ≤ s.length := validSpans_le h3
    simp only [reassembled, List.drop_zero, List.append_assoc]
    rw [List.take_append_of_le_length (by rw [List.length_take]; omega)]
    rw [List.take_take, Nat.min_eq_left (by omega)]

theorem reassembled_drop {s : Str} {rest : List Replacement} {e : Nat}
    (h : validSpans s.length e rest = true) : (reassembled s 0 rest).drop e = reassembled s e rest := by
  cases rest with
  | nil => simp [reassembled]
  | cons r' rs' =>
    simp [validSpans] at h
    obtain ⟨⟨h1, h2⟩, h3⟩ := h
    have hle : r'.stop ≤ s.length := validSpans_le h3
    simp only [reassembled, List.drop_zero, List.append_assoc]
    rw [List.drop_append_of_le_length (by rw [List.length_take]; omega)]

theorem foldr_splice_eq {s : Str} :
    ∀ {rs : List Replacement}, validSpans s.length 0 rs = true →
      rs.foldr (fun r acc => spliceOne acc r) s = reassembled s 0 rs := by
  intro rs
  induction rs with
  | nil => intro _; rfl
  | cons r rest ih =>
    intro h
    simp [validSpans] at h
    obtain ⟨h2, h3⟩ := h
    have h0 : validSpans s.length 0 rest = true := validSpans_mono h3 (Nat.zero_le _)
    have hstart : validSpans s.length r.start rest = true := validSpans_mono h3 (le_of_lt h2)
    rw [List.foldr_cons, ih h0]
    show spliceOne (reassembled s 0 rest) r = _
    rw [spliceOne, reassembled_take hstart, reassembled_drop h3]
    simp [reassembled]

/-- Claim C1: for every input text and every replacement list of the shape
`process_bib_file` collects (spans in discovery order, pairwise
non-overlapping, non-empty, within the text), applying the replacements
sorted by start offset descending yields the text in which every character
outside the spans is preserved verbatim and each span appears exactly
once, replaced by its replacement text — which is what `reassembled`
spells out. -/
theorem reassembly_correct (s : Str) (rs : List Replacement)
    (h : validSpans s.length 0 rs = true) :
    applyReplacements s rs = reassembled s 0 rs := by
  rw [applyReplacements, sortDesc_eq_reverse h, List.foldl_reverse]
  exact foldr_splice_eq h

theorem reassembly_correct_witness :
    validSpans ("abcdef".data).length 0 [repA, repB] = true ∧
    applyReplacements "abcdef".data [repA, repB] = reassembled "abcdef".data 0 [repA, repB] :=
  ⟨by decide, reassembly_correct _ _ (by decide)⟩

theorem candTitle_of_wf {it : CrossrefItem} (h : it.title.getD [[]] ≠ []) :
    candTitle it = some ((it.title.getD [[]]).headD []) := by
  cases hl : it.title.getD [[]] with
  | nil => exact absurd hl h
  | cons a l => rw [candTitle, hl]; rfl

theorem searchLoop_miss {target : Str} :
    ∀ {items : List CrossrefItem},
      (∀ it ∈ items, it.title.getD [[]] ≠ []) →
      (∀ it ∈ items, normalizeTitle ((it.title.getD [[]]).headD []) ≠ target) →
      searchLoop target items = .error .noExactTitleMatch := by
  intro items
  induction items with
  | nil => intro _ _; rfl
  | cons it rest ih =>
    intro hwf hmiss
    simp only [searchLoop, candTitle_of_wf (hwf it (by simp))]
    rw [if_neg (hmiss it (by simp))]
    exact ih (fun x hx => hwf x (by simp [hx])) (fun x hx => hmiss x (by simp [hx]))

theorem searchLoop_hit {target : Str} :
    ∀ {l₁ : List CrossrefItem} {it : CrossrefItem} {l₂ : List CrossrefItem},
      (∀ x ∈ l₁, x.title.getD [[]] ≠ []) →
      (∀ x ∈ l₁, normalizeTitle ((x.title.getD [[]]).headD []) ≠ target) →
      it.title.getD [[]] ≠ [] →
      normalizeTitle ((it.title.getD [[]]).headD []) = target →
      searchLoop target (l₁ ++ it :: l₂) = .ok it.DOI := by
  intro l₁
  induction l₁ with
  | nil =>
    intro it l₂ _ _ hwfit hit
    simp only [List.nil_append, searchLoop, candTitle_of_wf hwfit]
    rw [if_pos hit]
  | cons x l₁ ih =>
    intro it l₂ hwf hmiss hwfit hit
    simp only [List.cons_append, searchLoop, candTitle_of_wf (hwf x (by simp))]
    rw [if_neg (hmiss x (by simp))]
    exact ih (fun y hy => hwf y (by simp [hy])) (fun y hy => hmiss y (by simp [hy])) hwfit hit

/-- Claim C6: over well-formed candidate lists (each candidate exposes at
least one title, per the response contract), `search_doi_by_metadata`
raises the no-candidates error on an empty list, returns the identifier of
the first candidate whose normalized title equals the normalized query
title, and raises the no-exact-match error when no candidate matches — it
never selects a nearest non-exact candidate. -/
theorem search_doi_by_metadata_exact_title (title author : Str) (items : List CrossrefItem)
    (hwf : ∀ it ∈ items, it.title.getD [[]] ≠ []) :
    (items = [] → search_doi_by_metadata title author items = .error .noCandidates) ∧
    (∀ l₁ it l₂, items = l₁ ++ it :: l₂ →
      (∀ x ∈ l₁, normalizeTitle ((x.title.getD [[]]).headD []) ≠
        normalizeTitle (cleanTitleQuery title)) →
      normalizeTitle ((it.title.getD [[]]).headD []) = normalizeTitle (cleanTitleQuery title) →
      search_doi_by_metadata title author items = .ok it.DOI) ∧
    ((∀ it ∈ items, normalizeTitle ((it.title.getD [[]]).headD []) ≠
        normalizeTitle (cleanTitleQuery title)) → items ≠ [] →
      search_doi_by_metadata title author items = .error .noExactTitleMatch) := by
  refine ⟨?_, ?_, ?_⟩
  · intro h
    subst h
    rfl
  · intro l₁ it l₂ hsplit hmiss hit
    subst hsplit
    unfold search_doi_by_metadata
    rw [if_neg (by simp)]
    exact searchLoop_hit (fun x hx => hwf x (List.mem_append_left _ hx)) hmiss
      (hwf it (by simp)) hit
  · intro hmiss hne
    unfold search_doi_by_metadata
    rw [if_neg (by simp [List.isEmpty_iff, hne])]
    exact searchLoop_miss hwf hmiss

theorem search_doi_by_metadata_exact_title_witness :
    search_doi_by_metadata "a  new result".data "X".data itemsW = .ok ("10.9/yes".data) :=
  (search_doi_by_metadata_exact_title "a  new result".data "X".data itemsW (by decide)).2.1
    [⟨some ["Near Miss".data], "10.9/no".data⟩] ⟨some ["A New,  Result!".data], "10.9/yes".data⟩ []
    rfl (by decide) (by decide)

theorem http_get_loop_succ (resps : Nat → Nat) (rem attempt : Nat) :
    http_get_loop resps (rem + 1) attempt =
      if resps attempt = 429 then
        ((http_get_loop resps rem (attempt + 1)).1,
          BACKOFF_FACTOR * 2 ^ (attempt - 1) :: (http_get_loop resps rem (attempt + 1)).2)
      else (raise_for_status (resps attempt), []) := rfl

theorem http_get_loop_zero (resps : Nat → Nat) (attempt : Nat) :
    http_get_loop resps 0 attempt =
      (pyNoneGuard (raise_for_status (resps MAX_RETRIES)), []) := rfl

theorem raise_for_status_spec (s : Nat) :
    (isSuccessStatus s = true ∧ raise_for_status s = .ok s) ∨
    (isSuccessStatus s = false ∧ raise_for_status s = .httpError s) := by
  by_cases h : 400 ≤ s ∧ s < 600
  · right
    simp [isSuccessStatus, raise_for_status, h]
  · left
    simp [isSuccessStatus, raise_for_status, h]

/-- Claim C7: `http_get` makes at most `MAX_RETRIES = 3` attempts, retries
only on status 429, sleeps `BACKOFF_FACTOR * 2 ^ (attempt - 1)` before
each retry, settles any non-429 response immediately through
`raise_for_status` (which raises exactly on the non-success 4xx/5xx
statuses) without further attempts or sleeps, and after three 429s raises
the final attempt's rate-limit failure. -/
theorem http_get_retry_policy (resps : Nat → Nat) :
    (resps 1 ≠ 429 → http_get resps = (raise_for_status (resps 1), [])) ∧
    (resps 1 = 429 → resps 2 ≠ 429 →
      http_get resps = (raise_for_status (resps 2), [BACKOFF_FACTOR * 2 ^ 0])) ∧
    (resps 1 = 429 → resps 2 = 429 → resps 3 ≠ 429 →
      http_get resps = (raise_for_status (resps 3),
        [BACKOFF_FACTOR * 2 ^ 0, BACKOFF_FACTOR * 2 ^ 1])) ∧
    (resps 1 = 429 → resps 2 = 429 → resps 3 = 429 →
      http_get resps = (HttpOutcome.httpError 429,
        [BACKOFF_FACTOR * 2 ^ 0, BACKOFF_FACTOR * 2 ^ 1, BACKOFF_FACTOR * 2 ^ 2])) ∧
    (∀ s, 400 ≤ s → s < 600 → raise_for_status s = HttpOutcome.httpError s) := by
  refine ⟨?_, ?_, ?_, ?_, ?_⟩
  · intro h1
    show http_get_loop resps (2 + 1) 1 = _
    rw [http_get_loop_succ, if_neg h1]
  · intro h1 h2
    show http_get_loop resps (2 + 1) 1 = _
    rw [http_get_loop_succ, if_pos h1]
    show ((http_get_loop resps (1 + 1) 2).1, _ :: (http_get_loop resps (1 + 1) 2).2) = _
    rw [http_get_loop_succ, if_neg h2]
  · intro h1 h2 h3
    show http_get_loop resps (2 + 1) 1 = _
    rw [http_get_loop_succ, if_pos h1]
    show ((http_get_loop resps (1 + 1) 2).1, _ :: (http_get_loop resps (1 + 1) 2).2) = _
    rw [http_get_loop_succ, if_pos h2]
    show ((((http_get_loop resps (0 + 1) 3).1, _ :: (http_get_loop resps (0 + 1) 3).2) :
        HttpOutcome × List Nat).1, _ :: (_ : HttpOutcome × List Nat).2) = _
    rw [http_get_loop_succ, if_neg h3]
  · intro h1 h2 h3
    show http_get_loop resps (2 + 1) 1 = _
    rw [http_get_loop_succ, if_pos h1]
    show ((http_get_loop resps (1 + 1) 2).1, _ :: (http_get_loop resps (1 + 1) 2).2) = _
    rw [http_get_loop_succ, if_pos h2]
    show ((((http_get_loop resps (0 + 1) 3).1, _ :: (http_get_loop resps (0 + 1) 3).2) :
        HttpOutcome × List Nat).1, _ :: (_ : HttpOutcome × List Nat).2) = _
    rw [http_get_loop_succ, if_pos h3, http_get_loop_zero]
    simp [MAX_RETRIES, h3, pyNoneGuard, raise_for_status]
  · intro s hs1 hs2
    simp [raise_for_status, hs1, hs2]

theorem http_get_retry_policy_witness :
    http_get (fun _ => 429) = (HttpOutcome.httpError 429, [1, 2, 4]) ∧
    http_get (fun _ => 500) = (HttpOutcome.httpError 500, []) := by
  constructor
  · have h := (http_get_retry_policy (fun _ => 429)).2.2.2.1 rfl rfl rfl
    simpa using h
  · have h := (http_get_retry_policy (fun _ => 500)).1 (by decide)
    have h5 := (http_get_retry_policy (fun _ => 500)).2.2.2.2 500 (by decide) (by decide)
    rw [h, h5]

theorem http_outcome_triple {r : HttpOutcome × List Nat} {s : Nat} (hs : s ≠ 429)
    (h : r.1 = raise_for_status s) :
    r.1 ≠ HttpOutcome.retNone ∧
    (∀ t, r.1 = HttpOutcome.ok t → isSuccessStatus t = true ∧ t ≠ 429) ∧
    ((∃ t, r.1 = HttpOutcome.ok t ∧ isSuccessStatus t = true) ∨
      (∃ t, r.1 = HttpOutcome.httpError t)) := by
  rcases raise_for_status_spec s with ⟨hsu, he⟩ | ⟨hsu, he⟩
  · rw [h, he]
    refine ⟨by simp, ?_, Or.inl ⟨s, rfl, hsu⟩⟩
    intro t ht
    cases ht
    exact ⟨hsu, hs⟩
  · rw [h, he]
    refine ⟨by simp, ?_, Or.inr ⟨s, rfl⟩⟩
    intro t ht
    simp at ht

/-- Claim C10: for every response-status sequence, `http_get` either
returns a response `raise_for_status` accepts (never one with status 429)
or raises; it never falls through to Python's implicit `None` return. -/
theorem http_get_never_none_never_429 (resps : Nat → Nat) :
    (http_get resps).1 ≠ HttpOutcome.retNone ∧
    (∀ t, (http_get resps).1 = HttpOutcome.ok t → isSuccessStatus t = true ∧ t ≠ 429) ∧
    ((∃ t, (http_get resps).1 = HttpOutcome.ok t ∧ isSuccessStatus t = true) ∨
      (∃ t, (http_get resps).1 = HttpOutcome.httpError t)) := by
  by_cases h1 : resps 1 = 429
  · by_cases h2 : resps 2 = 429
    · by_cases h3 : resps 3 = 429
      · have he : http_get resps = (HttpOutcome.httpError 429,
            [BACKOFF_FACTOR * 2 ^ 0, BACKOFF_FACTOR * 2 ^ 1, BACKOFF_FACTOR * 2 ^ 2]) := by
          show http_get_loop resps (2 + 1) 1 = _
          rw [http_get_loop_succ, if_pos h1]
          show ((http_get_loop resps (1 + 1) 2).1, _ :: (http_get_loop resps (1 + 1) 2).2) = _
          rw [http_get_loop_succ, if_pos h2]
          show ((((http_get_loop resps (0 + 1) 3).1, _ :: (http_get_loop resps (0 + 1) 3).2) :
              HttpOutcome × List Nat).1, _ :: (_ : HttpOutcome × List Nat).2) = _
          rw [http_get_loop_succ, if_pos h3, http_get_loop_zero]
          simp [MAX_RETRIES, h3, pyNoneGuard, raise_for_status]
        rw [he]
        refine ⟨by simp, ?_, Or.inr ⟨429, rfl⟩⟩
        intro t ht
        simp at ht
      · refine http_outcome_triple h3 ?_
        show (http_get_loop resps (2 + 1) 1).1 = _
        rw [http_get_loop_succ, if_pos h1]
        show (http_get_loop resps (1 + 1) 2).1 = _
        rw [http_get_loop_succ, if_pos h2]
        show (http_get_loop resps (0 + 1) 3).1 = _
        rw [http_get_loop_succ, if_neg h3]
    · refine http_outcome_triple h2 ?_
      show (http_get_loop resps (2 + 1) 1).1 = _
      rw [http_get_loop_succ, if_pos h1]
      show (http_get_loop resps (1 + 1) 2).1 = _
      rw [http_get_loop_succ, if_neg h2]
  · refine http_outcome_triple h1 ?_
    show (http_get_loop resps (2 + 1) 1).1 = _
    rw [http_get_loop_succ, if_neg h1]

theorem http_get_never_none_never_429_witness :
    (http_get (fun _ => 200)).1 ≠ HttpOutcome.retNone :=
  (http_get_never_none_never_429 (fun _ => 200)).1

theorem usedAfter_append : ∀ (e1 : List Event) (u : List Str) (e2 : List Event),
    usedAfter u (e1 ++ e2) = usedAfter (usedAfter u e1) e2 := by
  intro e1
  induction e1 with
  | nil => intro u e2; rfl
  | cons ev rest ih =>
    intro u e2
    cases ev <;> simp [usedAfter, ih]

theorem wellFetched_append : ∀ (e1 : List Event) (u : List Str) (e2 : List Event),
    wellFetched u (e1 ++ e2) = (wellFetched u e1 && wellFetched (usedAfter u e1) e2) := by
  intro e1
  induction e1 with
  | nil => intro u e2; simp [wellFetched, usedAfter]
  | cons ev rest ih =>
    intro u e2
    cases ev with
    | fetch d => simp [wellFetched, usedAfter, ih, Bool.and_assoc]
    | claim d => simp [wellFetched, usedAfter, ih]
    | skip d => simp [wellFetched, usedAfter, ih]
    | metaFail => simp [wellFetched, usedAfter, ih]

theorem StepOK_extend {u u1 : List Str} {e1 : List Event} {s : StepOut}
    (h1 : wellFetched u e1 = true) (h2 : usedAfter u e1 = u1) (hs : StepOK u1 s) :
    StepOK u ⟨s.repl, s.used_dois, e1 ++ s.events, s.branch⟩ := by
  constructor
  · show wellFetched u (e1 ++ s.events) = true
    rw [wellFetched_append, h1, h2, hs.1]
    rfl
  · show usedAfter u (e1 ++ s.events) = s.used_dois
    rw [usedAfter_append, h2, hs.2]

theorem fall_extend {u u1 u2 : List Str} {e1 e2 : List Event}
    (h1 : wellFetched u e1 = true) (h2 : usedAfter u e1 = u1)
    (h3 : wellFetched u1 e2 = true) (h4 : usedAfter u1 e2 = u2) :
    wellFetched u (e1 ++ e2) = true ∧ usedAfter u (e1 ++ e2) = u2 := by
  constructor
  · rw [wellFetched_append, h1, h2, h3]
    rfl
  · rw [usedAfter_append, h2, h4]

theorem tryArxiv_ok (env : Env) (u : List Str) (urlf : Str) : AttOK u (tryArxiv env u urlf) := by
  simp only [tryArxiv]
  split
  · exact ⟨rfl, rfl⟩
  next page heq =>
    split
    · exact ⟨rfl, rfl⟩
    next adoi heq2 =>
      split
      · exact ⟨rfl, rfl⟩
      next hc =>
        have hc' : u.contains adoi = false := by simpa using hc
        split
        next t heq3 =>
          exact ⟨by simp only [wellFetched, Bool.and_true, Bool.not_eq_true']; exact hc', rfl⟩
        next heq3 =>
          exact ⟨by simp only [wellFetched, Bool.and_true, Bool.not_eq_true']; exact hc', rfl⟩

theorem tryMetadata_ok (env : Env) (u : List Str) (ent : Entry) :
    AttOK u (tryMetadata env u ent) := by
  simp only [tryMetadata]
  split
  · exact ⟨rfl, rfl⟩
  next found heq =>
    split
    · exact ⟨rfl, rfl⟩
    next hc =>
      have hc' : u.contains found = false := by simpa using hc
      split
      next t heq2 =>
        exact ⟨by simp only [wellFetched, Bool.and_true, Bool.not_eq_true']; exact hc', rfl⟩
      next heq2 =>
        exact ⟨by simp only [wellFetched, Bool.and_true, Bool.not_eq_true']; exact hc', rfl⟩

theorem tryDoiDirect_ok (env : Env) (u : List Str) (d : Str) :
    AttOK u (tryDoiDirect env u d) := by
  simp only [tryDoiDirect]
  split
  · exact ⟨rfl, rfl⟩
  next hc =>
    have hc' : u.contains d = false := by simpa using hc
    split
    next t heq =>
      exact ⟨by simp only [wellFetched, Bool.and_true, Bool.not_eq_true']; exact hc', rfl⟩
    next heq =>
      exact ⟨by simp only [wellFetched, Bool.and_true, Bool.not_eq_true']; exact hc', rfl⟩

theorem resolveStructured_ok (env : Env) (u : List Str) (key : Str) (ent : Entry) :
    StepOK u (resolveStructured env u key ent) := by
  simp only [resolveStructured]
  split
  · exact ⟨rfl, rfl⟩
  · have ha2 : AttOK u (if !pyTruthy ent.doi && hasSub arxivAbsS (pyStrip ent.url) then
        tryArxiv env u (pyStrip ent.url) else Att.fall u []) := by
      split
      · exact tryArxiv_ok env u _
      · exact ⟨rfl, rfl⟩
    cases h2 : (if !pyTruthy ent.doi && hasSub arxivAbsS (pyStrip ent.url) then
        tryArxiv env u (pyStrip ent.url) else Att.fall u []) with
    | done s =>
      rw [h2] at ha2
      dsimp only
      exact ha2
    | fall u1 e1 =>
      rw [h2] at ha2
      dsimp only
      have ha3 : AttOK u1 (if !pyTruthy ent.doi then tryMetadata env u1 ent else Att.fall u1 []) := by
        split
        · exact tryMetadata_ok env u1 ent
        · exact ⟨rfl, rfl⟩
      cases h3 : (if !pyTruthy ent.doi then tryMetadata env u1 ent else Att.fall u1 []) with
      | done s =>
        rw [h3] at ha3
        dsimp only
        exact StepOK_extend ha2.1 ha2.2 ha3
      | fall u2 e2 =>
        rw [h3] at ha3
        dsimp only
        have ha4 : AttOK u2 (if pyTruthy ent.doi then tryDoiDirect env u2 (ent.doi.getD [])
            else Att.fall u2 []) := by
          split
          · exact tryDoiDirect_ok env u2 _
          · exact ⟨rfl, rfl⟩
        cases h4 : (if pyTruthy ent.doi then tryDoiDirect env u2 (ent.doi.getD [])
            else Att.fall u2 []) with
        | done s =>
          rw [h4] at ha4
          dsimp only
          have h12 := fall_extend ha2.1 ha2.2 ha3.1 ha3.2
          have hfin := StepOK_extend h12.1 h12.2 ha4
          have w : wellFetched u (e1 ++ e2 ++ s.events) = true := hfin.1
          have v : usedAfter u (e1 ++ e2 ++ s.events) = s.used_dois := hfin.2
          exact ⟨w, v⟩
        | fall u3 e3 =>
          rw [h4] at ha4
          dsimp only
          have h12 := fall_extend ha2.1 ha2.2 ha3.1 ha3.2
          have h123 := fall_extend h12.1 h12.2 ha4.1 ha4.2
          exact ⟨h123.1, h123.2⟩

theorem resolveRaw_ok (env : Env) (u : List Str) (block : Str) :
    StepOK u (resolveRaw env u block) := by
  simp only [resolveRaw]
  cases hd : rawDoi block with
  | none =>
    dsimp only
    exact ⟨rfl, rfl⟩
  | some doi =>
    dsimp only
    split
    next hcond =>
      have hc : u.contains doi = false := by
        simp only [Bool.and_eq_true, Bool.not_eq_true'] at hcond
        exact hcond.2
      split
      next t heq =>
        exact ⟨by simp only [wellFetched, Bool.and_true, Bool.not_eq_true']; exact hc, rfl⟩
      next heq =>
        exact ⟨by simp only [wellFetched, Bool.and_true, Bool.not_eq_true']; exact hc, rfl⟩
    next => exact ⟨rfl, rfl⟩

theorem runStep_ok (env : Env) (u : List Str) (r : RecordIn) :
    StepOK u (runStep env u r) := by
  cases r with
  | mk key block ent =>
    cases ent with
    | none => exact resolveRaw_ok env u block
    | some e => exact resolveStructured_ok env u key e

theorem runAll_ok (env : Env) : ∀ (rs : List RecordIn) (u : List Str),
    wellFetched u (runAll env u rs).2.2 = true ∧
    usedAfter u (runAll env u rs).2.2 = (runAll env u rs).2.1 := by
  intro rs
  induction rs with
  | nil => intro u; exact ⟨rfl, rfl⟩
  | cons r rs ih =>
    intro u
    have hs := runStep_ok env u r
    simp only [runAll]
    cases hrepl : (runStep env u r).repl with
    | none =>
      simp only [hrepl]
      exact hs
    | some t =>
      simp only [hrepl]
      constructor
      · rw [wellFetched_append, hs.1, hs.2, (ih _).1]
        rfl
      · rw [usedAfter_append, hs.2, (ih _).2]

/-- Claim C5 (amended): the pipeline checks `used_dois` before every call
to `fetch_bibtex_from_doi` and never fetches an identifier already
recorded; the identifier is added to `used_dois` by the `claim` event
following a successful fetch (not before it, as the claim asserts — see
the counterexample), and the `claim` events account exactly for the final
`used_dois`. -/
theorem used_dois_checked_before_fetch (env : Env) (u0 : List Str) (rs : List RecordIn) :
    wellFetched u0 (runAll env u0 rs).2.2 = true ∧
    usedAfter u0 (runAll env u0 rs).2.2 = (runAll env u0 rs).2.1 :=
  runAll_ok env rs u0

/-- Claim C5 (counterexample): in a concrete run the trace is
`fetch` then `claim` — the identifier is not yet recorded in `used_dois`
when the fetch is performed, refuting "claimed before the fetch". -/
theorem used_dois_not_claimed_before_fetch :
    (runAll envT [] [recZ1]).2.2 =
      [Event.fetch ("10.3/z".data), Event.claim ("10.3/z".data)] ∧
    fetchAfterClaim [] (runAll envT [] [recZ1]).2.2 = false := by decide

theorem wellFetched_no_fetch_of_mem {x : Str} :
    ∀ (evs : List Event) (u : List Str), x ∈ u → wellFetched u evs = true →
      Event.fetch x ∉ evs := by
  intro evs
  induction evs with
  | nil => intro u _ _; simp
  | cons ev rest ih =>
    intro u hx hwf
    cases ev with
    | fetch d =>
      simp only [wellFetched, Bool.and_eq_true, Bool.not_eq_true'] at hwf
      intro hmem
      rcases List.mem_cons.mp hmem with heq | hmem'
      · have hxd : x = d := by simpa using heq
        subst hxd
        have : u.contains x = true := by simpa using hx
        rw [this] at hwf
        exact absurd hwf.1 (by simp)
      · exact ih u hx hwf.2 hmem'
    | claim d =>
      simp only [wellFetched] at hwf
      intro hmem
      rcases List.mem_cons.mp hmem with heq | hmem'
      · exact absurd heq (by simp)
      · exact ih (d :: u) (List.mem_cons_of_mem _ hx) hwf hmem'
    | skip d =>
      simp only [wellFetched] at hwf
      intro hmem
      rcases List.mem_cons.mp hmem with heq | hmem'
      · exact absurd heq (by simp)
      · exact ih u hx hwf hmem'
    | metaFail =>
      simp only [wellFetched] at hwf
      intro hmem
      rcases List.mem_cons.mp hmem with heq | hmem'
      · exact absurd heq (by simp)
      · exact ih u hx hwf hmem'

/-- Claim C3 (amended): once an identifier has been claimed (its fetch
succeeded), no later record of the run ever triggers another
`fetch_bibtex_from_doi` call for it.  The duplicate is reported as skipped
only when it is detected in the metadata-search branch; the preprint,
direct-identifier and raw-block branches fall through silently (see the
counterexample). -/
theorem no_second_fetch_after_claim (env : Env) (u0 : List Str) (rs : List RecordIn)
    (pre suf : List Event) (x : Str)
    (h : (runAll env u0 rs).2.2 = pre ++ Event.claim x :: suf) :
    Event.fetch x ∉ suf := by
  have hwf := (runAll_ok env rs u0).1
  rw [h, wellFetched_append] at hwf
  simp only [Bool.and_eq_true] at hwf
  have h2 : wellFetched (usedAfter u0 pre) (Event.claim x :: suf) = true := hwf.2
  simp only [wellFetched] at h2
  exact wellFetched_no_fetch_of_mem suf (x :: usedAfter u0 pre) (by simp) h2

theorem no_second_fetch_after_claim_witness :
    Event.fetch ("10.3/z".data) ∉
      [Event.fetch ("10.4/w".data), Event.claim ("10.4/w".data)] :=
  no_second_fetch_after_claim envT [] [recZ1, recZ2, recW]
    [Event.fetch ("10.3/z".data)]
    [Event.fetch ("10.4/w".data), Event.claim ("10.4/w".data)]
    ("10.3/z".data) (by decide)

/-- Claim C3 (counterexample): two records carrying the same DOI field
`10.3/z`; the run fetches it once, but the second record is not reported
as skipped — no skip event is emitted; it silently falls back to the
re-rendered entry. -/
theorem duplicate_skip_not_reported :
    (runAll envT [] [recZ1, recZ2]).2.2 =
      [Event.fetch ("10.3/z".data), Event.claim ("10.3/z".data)] ∧
    (runAll envT [] [recZ1, recZ2]).2.2.filter isSkipEv = [] ∧
    (runAll envT [] [recZ1, recZ2]).1 =
      [some ("FETCHED".data), some ("RENDERED".data)] := by decide

/-- Claim C8 (amended): a record whose identifier field is populated never
resolves via branch 1 (local `@misc` synthesis) nor via the no-identifier
branches 2 and 3; it resolves via branch 4 when the identifier is not yet
claimed and its fetch succeeds, and falls to the terminal fallback
(branch 5) when the identifier is already claimed — not via branch 4 as
the claim asserts (see the counterexample). -/
theorem doi_branch_precedence (env : Env) (u0 : List Str) (key : Str) (ent : Entry)
    (hdoi : pyTruthy ent.doi = true) :
    ((resolveStructured env u0 key ent).branch ≠ 1 ∧
      (resolveStructured env u0 key ent).branch ≠ 2 ∧
      (resolveStructured env u0 key ent).branch ≠ 3) ∧
    (u0.contains (ent.doi.getD []) = false →
      (env.fetchRaw (ent.doi.getD [])).isSome = true →
      (resolveStructured env u0 key ent).branch = 4) ∧
    (u0.contains (ent.doi.getD []) = true →
      (resolveStructured env u0 key ent).branch = 5) := by
  have hnd : (!pyTruthy ent.doi) = false := by simp [hdoi]
  by_cases hc : u0.contains (ent.doi.getD []) = true
  · have hm : ent.doi.getD [] ∈ u0 := by simpa using hc
    have hval : resolveStructured env u0 key ent =
        ⟨some (clean_protected_case (env.render ent)), u0, [], 5⟩ := by
      simp [resolveStructured, hnd, tryDoiDirect, hdoi, hm]
    rw [hval]
    exact ⟨⟨by simp, by simp, by simp⟩,
      fun hcf _ => by rw [hcf] at hc; exact absurd hc (by simp), fun _ => rfl⟩
  · have hc' : u0.contains (ent.doi.getD []) = false := by simpa using hc
    have hm' : ¬ent.doi.getD [] ∈ u0 := by simpa using hc'
    cases hf : env.fetchRaw (ent.doi.getD []) with
    | some t =>
      have hval : resolveStructured env u0 key ent =
          ⟨some (clean_protected_case t), (ent.doi.getD []) :: u0,
            [Event.fetch (ent.doi.getD []), Event.claim (ent.doi.getD [])], 4⟩ := by
        simp [resolveStructured, hnd, tryDoiDirect, hdoi, hm', fetch_bibtex_from_doi, hf]
      rw [hval]
      exact ⟨⟨by simp, by simp, by simp⟩, fun _ _ => rfl,
        fun h => by rw [hc'] at h; exact absurd h (by simp)⟩
    | none =>
      have hval : resolveStructured env u0 key ent =
          ⟨none, u0, [Event.fetch (ent.doi.getD [])], 0⟩ := by
        simp [resolveStructured, hnd, tryDoiDirect, hdoi, hm', fetch_bibtex_from_doi, hf]
      rw [hval]
      refine ⟨⟨by simp, by simp, by simp⟩, ?_,
        fun h => by rw [hc'] at h; exact absurd h (by simp)⟩
      intro _ hfs
      exact absurd hfs (by simp)

theorem doi_branch_precedence_witness :
    pyTruthy entDoiX.doi = true ∧
    (resolveStructured envT [] ("k".data) entDoiX).branch = 4 ∧
    (resolveStructured envT [] ("k".data) entDoiX).branch ≠ 1 :=
  ⟨by decide,
   (doi_branch_precedence envT [] ("k".data) entDoiX (by decide)).2.1 (by decide) (by decide),
   (doi_branch_precedence envT [] ("k".data) entDoiX (by decide)).1.1⟩

/-- Claim C8 (counterexample): a record with both a populated identifier
field and a populated link field whose identifier is already claimed
resolves via the terminal fallback (branch 5), not via branch 4. -/
theorem doi_claimed_falls_to_fallback :
    pyTruthy entDoiX.doi = true ∧
    (pyStrip entDoiX.url).isEmpty = false ∧
    (resolveStructured envT ["10.1/x".data] ("k".data) entDoiX).branch = 5 := by decide

/-- Claim C4 (code bug): for the scenario record linking to the preprint
`1234.5678` whose abstract page holds `href="https://doi.org/10.2/y"`,
`extract_arxiv_doi` keeps only the last path segment `y` — not the full
identifier `10.2/y` the spec requires — and the preprint branch then
fetches that truncated identifier. -/
theorem extract_arxiv_doi_last_segment_only :
    extract_arxiv_doi htmlC4 = some ("y".data) ∧
    ("y".data : Str) ≠ "10.2/y".data ∧
    (resolveStructured envT [] ("a1".data) entArxiv).events =
      [Event.fetch ("y".data), Event.claim ("y".data)] ∧
    (resolveStructured envT [] ("a1".data) entArxiv).branch = 2 := by decide

theorem tryArxiv_done_some (env : Env) (u : List Str) (urlf : Str) :
    ∀ s, tryArxiv env u urlf = Att.done s → s.repl.isSome = true := by
  intro s h
  simp only [tryArxiv] at h
  split at h
  · simp at h
  · split at h
    · simp at h
    · split at h
      · simp at h
      · split at h
        · cases h
          rfl
        · simp at h

theorem tryMetadata_done_some (env : Env) (u : List Str) (ent : Entry) :
    ∀ s, tryMetadata env u ent = Att.done s → s.repl.isSome = true := by
  intro s h
  simp only [tryMetadata] at h
  split at h
  · simp at h
  · split at h
    · simp at h
    · split at h
      · cases h
        rfl
      · simp at h

theorem tryDoiDirect_done_some (env : Env) (u : List Str) (d : Str)
    (hf : (env.fetchRaw d).isSome = true) :
    ∀ s, tryDoiDirect env u d = Att.done s → s.repl.isSome = true := by
  intro s h
  simp only [tryDoiDirect] at h
  split at h
  · simp at h
  · split at h
    · cases h
      rfl
    · rename_i heq
      exfalso
      cases hfr : env.fetchRaw d with
      | some t => simp [fetch_bibtex_from_doi, hfr] at heq
      | none =>
        rw [hfr] at hf
        simp at hf

theorem resolveStructured_some (env : Env) (u : List Str) (key : Str) (ent : Entry)
    (hfetch : ∀ d, (env.fetchRaw d).isSome = true) :
    (resolveStructured env u key ent).repl.isSome = true := by
  simp only [resolveStructured]
  split
  · rfl
  · cases h2 : (if !pyTruthy ent.doi && hasSub arxivAbsS (pyStrip ent.url) then
        tryArxiv env u (pyStrip ent.url) else Att.fall u []) with
    | done s =>
      dsimp only
      by_cases hcnd : (!pyTruthy ent.doi && hasSub arxivAbsS (pyStrip ent.url)) = true
      · rw [if_pos hcnd] at h2
        exact tryArxiv_done_some env u _ s h2
      · rw [if_neg hcnd] at h2
        simp at h2
    | fall u1 e1 =>
      dsimp only
      cases h3 : (if !pyTruthy ent.doi then tryMetadata env u1 ent else Att.fall u1 []) with
      | done s =>
        dsimp only
        by_cases hcnd : (!pyTruthy ent.doi) = true
        · rw [if_pos hcnd] at h3
          exact tryMetadata_done_some env u1 ent s h3
        · rw [if_neg hcnd] at h3
          simp at h3
      | fall u2 e2 =>
        dsimp only
        cases h4 : (if pyTruthy ent.doi then tryDoiDirect env u2 (ent.doi.getD [])
            else Att.fall u2 []) with
        | done s =>
          dsimp only
          by_cases hcnd : pyTruthy ent.doi = true
          · rw [if_pos hcnd] at h4
            exact tryDoiDirect_done_some env u2 _ (hfetch _) s h4
          · rw [if_neg hcnd] at h4
            simp at h4
        | fall u3 e3 =>
          dsimp only
          rfl

theorem resolveRaw_some (env : Env) (u : List Str) (block : Str) :
    (resolveRaw env u block).repl.isSome = true := by
  simp only [resolveRaw]
  cases rawDoi block with
  | none =>
    dsimp only
    rfl
  | some doi =>
    dsimp only
    split
    · split
      · rfl
      · rfl
    · rfl

theorem runStep_some (env : Env) (u : List Str) (r : RecordIn)
    (hfetch : ∀ d, (env.fetchRaw d).isSome = true) :
    (runStep env u r).repl.isSome = true := by
  cases r with
  | mk key block ent =>
    cases ent with
    | none =>
      simp only [runStep]
      exact resolveRaw_some env u block
    | some e =>
      simp only [runStep]
      exact resolveStructured_some env u key e hfetch

/-- Claim C9 (amended): duplicate citation keys are not rejected and not
passed through untouched: every discovered record — duplicates included —
is processed and receives a replacement produced by the pipeline from the
shared structured entry (in general different from the original span
text; see the counterexample).  Stated for runs whose citation fetches
succeed, so that no record aborts the run. -/
theorem duplicate_keys_still_processed (env : Env) (u0 : List Str) (rs : List RecordIn)
    (hfetch : ∀ d, (env.fetchRaw d).isSome = true) :
    (runAll env u0 rs).1.length = rs.length ∧
    ∀ o ∈ (runAll env u0 rs).1, o.isSome = true := by
  induction rs generalizing u0 with
  | nil => exact ⟨rfl, by simp [runAll]⟩
  | cons r rs ih =>
    obtain ⟨t, ht⟩ := Option.isSome_iff_exists.mp (runStep_some env u0 r hfetch)
    simp only [runAll, ht]
    constructor
    · simp [(ih _).1]
    · intro o ho
      rcases List.mem_cons.mp ho with rfl | h'
      · rfl
      · exact (ih _).2 o h'

theorem duplicate_keys_still_processed_witness :
    (runAll envTotal [] [recK1, recK2]).1.length = 2 ∧
    ∀ o ∈ (runAll envTotal [] [recK1, recK2]).1, o.isSome = true :=
  duplicate_keys_still_processed envTotal [] [recK1, recK2] (fun _ => rfl)

/-- Claim C9 (counterexample): two records sharing citation key `k` are
not passed through untouched — the first is replaced by the fetched
citation and the second by the re-rendered entry, neither equal to its
original span text. -/
theorem duplicate_key_records_rewritten :
    recK1.key = recK2.key ∧
    (runAll envTotal [] [recK1, recK2]).1 =
      [some ("FETCHED".data), some ("RENDERED".data)] ∧
    "FETCHED".data ≠ recK1.block ∧
    "RENDERED".data ≠ recK2.block := by decide
